import Mathlib

/-!
Verification of the club SQL engagement analysis pipeline.

The definitions below are a shallow embedding of the Python sources
query_table_capture.py, query_categorization.py and
query_usage_quicklook.py: regex-based table-reference extraction,
table-name normalization, environment classification, complexity
scoring with explanations, the per-row capture/categorization stages,
and the order-preserving counter used for most-used-table selection.
Regex matching is embedded by explicit scanners that reproduce the
semantics of the concrete patterns used by the code (leftmost scan,
greedy quantifiers, case-insensitive literal matching).  All
definitions are structurally recursive so that concrete runs reduce
inside the kernel.
-/

namespace ClubSql

/-- Case-insensitive prefix test: the pattern is given pre-lowered and the
text characters are lowered before comparison, matching re.IGNORECASE
semantics for the literal patterns that appear in the code. -/
def hasPrefixLower : List Char → List Char → Bool
  | [], _ => true
  | _ :: _, [] => false
  | p :: ps, c :: cs => p == c.toLower && hasPrefixLower ps cs

/-- Case-insensitive substring containment, modelling re.search of a literal
pattern. -/
def containsLower (pat : List Char) : List Char → Bool
  | [] => hasPrefixLower pat []
  | c :: cs => hasPrefixLower pat (c :: cs) || containsLower pat cs

/-- Worker for the non-overlapping match counter: the first argument is the
number of characters of the current match still to be skipped. -/
def scanSkip (m : List Char → Option Nat) : Nat → List Char → Nat
  | _, [] => 0
  | k + 1, _ :: cs => scanSkip m k cs
  | 0, c :: cs =>
    match m (c :: cs) with
    | some n => scanSkip m (n - 1) cs + 1
    | none => scanSkip m 0 cs

/-- Generic leftmost scanner counting non-overlapping matches, modelling
len(re.findall(pattern, text)): a matcher returns the number of characters
consumed by a match starting at the head of the list, or none. -/
def scanCount (m : List Char → Option Nat) (s : List Char) : Nat :=
  scanSkip m 0 s

/-- Worker for the match collector, skipping the remainder of an already
collected match. -/
def findAllSkip (m : List Char → Option Nat) : Nat → List Char → List (List Char)
  | _, [] => []
  | k + 1, _ :: cs => findAllSkip m k cs
  | 0, c :: cs =>
    match m (c :: cs) with
    | some n => (c :: cs).take n :: findAllSkip m (n - 1) cs
    | none => findAllSkip m 0 cs

/-- Generic leftmost scanner collecting the matched substrings, modelling
re.findall for patterns without capture groups. -/
def findAll (m : List Char → Option Nat) (s : List Char) : List (List Char) :=
  findAllSkip m 0 s

/-- Existence of a match anywhere in the text, modelling re.search for the
patterns embedded as matchers. -/
def found (m : List Char → Option Nat) : List Char → Bool
  | [] => false
  | c :: cs => (m (c :: cs)).isSome || found m cs

/-- Matcher for a case-insensitive literal pattern (pattern pre-lowered). -/
def litMatch (pat : List Char) (s : List Char) : Option Nat :=
  if hasPrefixLower pat s then some pat.length else none

/-- Matcher tail for whitespace-star followed by an opening parenthesis,
the common tail of the aggregate and window-function patterns. -/
def wsParen : List Char → Option Nat
  | [] => none
  | c :: cs =>
    if c = '(' then some 1
    else if c.isWhitespace then (wsParen cs).map (· + 1)
    else none

/-- The leading aggregate-name alternation of the aggregate pattern, tried
in the order of the source pattern; at most one alternative can apply at a
given position. -/
def findAggName (s : List Char) : Option Nat :=
  if hasPrefixLower "count".data s then some 5
  else if hasPrefixLower "sum".data s then some 3
  else if hasPrefixLower "avg".data s then some 3
  else if hasPrefixLower "max".data s then some 3
  else if hasPrefixLower "min".data s then some 3
  else none

/-- Matcher for the aggregate pattern: an aggregate name, optional
whitespace, then an opening parenthesis. -/
def aggMatch (s : List Char) : Option Nat :=
  match findAggName s with
  | none => none
  | some k => (wsParen (s.drop k)).map (· + k)

/-- Matcher for the window-function pattern OVER, optional whitespace, then
an opening parenthesis. -/
def overMatch (s : List Char) : Option Nat :=
  if hasPrefixLower "over".data s then (wsParen (s.drop 4)).map (· + 4) else none

/-- Character class of the legacy pattern segments: anything but a dot or
whitespace. -/
def nonDotWs (c : Char) : Bool := !(c == '.') && !c.isWhitespace

/-- Greedy search for the last feasible position of the literal suffix _vw
inside the final segment run, reproducing the backtracking behaviour of the
greedy quantifier preceding the literal in the legacy pattern. -/
def lastVw (R : List Char) : Option Nat :=
  (List.range (R.length + 1)).reverse.find?
    (fun k => decide (1 ≤ k) && hasPrefixLower "_vw".data (R.drop k))

/-- Matcher for the legacy table pattern: the catalog name, a dot, a
non-empty segment without dots or whitespace, a dot, then a segment ending
in the view suffix, all case-insensitive. -/
def legacyMatch (s : List Char) : Option Nat :=
  if hasPrefixLower "awsdatacatalog".data s = true ∧ (s.drop 14).head? = some '.' then
    let rest := (s.drop 14).tail
    let seg1 := rest.takeWhile nonDotWs
    if seg1 ≠ [] ∧ (rest.drop seg1.length).head? = some '.' then
      let rest2 := (rest.drop seg1.length).tail
      match lastVw (rest2.takeWhile nonDotWs) with
      | some k => some (14 + 1 + seg1.length + 1 + (k + 3))
      | none => none
    else none
  else none

/-- Character class of the first gridiron segment: letters or underscore. -/
def isAlphaUnd (c : Char) : Bool := c.isAlpha || c == '_'

/-- Character class of the second gridiron segment: letters, underscore or
digits. -/
def isWordChar (c : Char) : Bool := isAlphaUnd c || c.isDigit

/-- Matcher for the gridiron table pattern: a letters-and-underscore run
ending in the schema suffix, a dot, then a non-empty run of word
characters. -/
def gridironMatch (s : List Char) : Option Nat :=
  let R := s.takeWhile isAlphaUnd
  if 5 ≤ R.length ∧ hasPrefixLower "_ptc".data (R.drop (R.length - 4)) = true
      ∧ (s.drop R.length).head? = some '.' then
    let run2 := (s.drop R.length).tail.takeWhile isWordChar
    if run2 ≠ [] then some (R.length + 1 + run2.length) else none
  else none

/-- Environment tag attached to an extracted table reference. -/
inductive Env
  | legacy
  | gridiron
deriving DecidableEq, Repr

/-- All legacy-pattern matches of a query text, in scan order. -/
def legacyFindall (q : String) : List String :=
  (findAll legacyMatch q.data).map String.mk

/-- All gridiron-pattern matches of a query text, in scan order. -/
def gridironFindall (q : String) : List String :=
  (findAll gridironMatch q.data).map String.mk

/-- Order-preserving deduplication by raw table identifier, mirroring the
seen-set loop of extract_tables. -/
def dedupeTables : List (Env × String) → List String → List (Env × String)
  | [], _ => []
  | (e, t) :: rest, seen =>
    if t ∈ seen then dedupeTables rest seen
    else (e, t) :: dedupeTables rest (t :: seen)

/-- Embedding of extract_tables: legacy matches first, then gridiron
matches, deduplicated by raw identifier preserving first occurrence. -/
def extract_tables (q : String) : List (Env × String) :=
  dedupeTables
    ((legacyFindall q).map (fun t => (Env.legacy, t)) ++
      (gridironFindall q).map (fun t => (Env.gridiron, t))) []

/-- Embedding of is_query_complete. -/
def is_query_complete (table_info_list : List (Env × String)) : Nat :=
  if table_info_list.isEmpty then 0 else 1

/-- Left-to-right non-overlapping removal of the literal _vw, modelling the
Python string replace call in the legacy branch of the normalizer. -/
def stripVwAll : List Char → List Char
  | '_' :: 'v' :: 'w' :: rest => stripVwAll rest
  | c :: rest => c :: stripVwAll rest
  | [] => []

/-- Split a character list on a separator character, with the semantics of
the Python split method with an explicit separator. -/
def splitOnChar (sep : Char) : List Char → List (List Char)
  | [] => [[]]
  | c :: cs =>
    match splitOnChar sep cs with
    | [] => [[c]]
    | h :: t => if c == sep then [] :: h :: t else (c :: h) :: t

/-- Join character lists with a separator character, with the semantics of
the Python join method. -/
def joinChar (sep : Char) : List (List Char) → List Char
  | [] => []
  | [x] => x
  | x :: y :: t => x ++ sep :: joinChar sep (y :: t)

/-- The final dot-separated segment of an identifier, modelling indexing the
last element of the Python split on a dot. -/
def lastDotSegment (t : String) : String :=
  String.mk ((splitOnChar '.' t.data).getLastD [])

/-- Embedding of get_simplified_table_name. -/
def get_simplified_table_name (table : String) (environment : Env) : String :=
  match environment with
  | Env.legacy =>
    let n2 := stripVwAll (lastDotSegment table).data
    let parts := splitOnChar '_' n2
    if parts.length > 1 then String.mk (joinChar '_' parts.dropLast) else String.mk n2
  | Env.gridiron =>
    let n1 := (lastDotSegment table).data
    if List.isPrefixOf "ptc_".data n1 then String.mk (n1.drop 4) else String.mk n1

/-- Number of references carrying a given environment tag. -/
def countEnv (e : Env) (l : List (Env × String)) : Nat :=
  (l.filter (fun p => p.1 == e)).length

/-- Embedding of determine_primary_environment. -/
def determine_primary_environment
    (table_info_list : List (Env × String)) (completeness : Nat) : String :=
  if completeness = 0 then "N/A"
  else if table_info_list.isEmpty then "unknown"
  else
    let lc := countEnv Env.legacy table_info_list
    let gc := countEnv Env.gridiron table_info_list
    if lc > gc then "legacy"
    else if gc > lc then "gridiron"
    else if 0 < lc ∧ 0 < gc then "mixed" else "legacy"

/-- The aggregate contribution formula of the scorer: the first call is
worth two points and each further call one point. -/
def aggFormula (a : Int) : Int := min a 1 * 2 + max (a - 1) 0

/-- Embedding of score_query: the sum of the individual signal
contributions in source order. -/
def score_query (query : String) : Int :=
  let s := query.data
  (if containsLower "select *".data s then 0 else 1)
  + (if containsLower "limit".data s then 1 else 0)
  + (if containsLower "where".data s then 2 else 0)
  + (if containsLower "having".data s then 2 else 0)
  + (if containsLower "order by".data s then 1 else 0)
  + (scanCount (litMatch "join".data) s : Int) * 3
  + (if containsLower "group by".data s then 2 else 0)
  + aggFormula (scanCount aggMatch s)
  + (scanCount (litMatch "(select".data) s : Int) * 3
  + (if containsLower "with".data s then 5 else 0)
  + (if containsLower "union".data s || containsLower "intersect".data s
        || containsLower "except".data s then 5 else 0)
  + (if found overMatch s then 6 else 0)
  + (if containsLower "pivot".data s || containsLower "unpivot".data s then 6 else 0)

/-- Embedding of categorize_query. -/
def categorize_query (score : Int) : String :=
  if score ≤ 2 then "Basic Exploratory"
  else if score ≤ 6 then "Focused Exploratory"
  else if score ≤ 13 then "Analytical"
  else "Complex Analytical"

/-- Embedding of explain_score as the list of appended entries, each a
signal name paired with its parenthesized numeric contribution, in source
order. -/
def explainEntries (query : String) : List (String × Int) :=
  let s := query.data
  (if containsLower "select *".data s then []
    else [("SELECT with specific columns", (1 : Int))])
  ++ (if containsLower "limit".data s then [("LIMIT clause", (1 : Int))] else [])
  ++ (if containsLower "where".data s then [("WHERE clause", (2 : Int))] else [])
  ++ (if containsLower "having".data s then [("HAVING clause", (2 : Int))] else [])
  ++ (if containsLower "order by".data s then [("ORDER BY", (1 : Int))] else [])
  ++ (if 0 < scanCount (litMatch "join".data) s then
        [("JOIns", (scanCount (litMatch "join".data) s : Int) * 3)] else [])
  ++ (if containsLower "group by".data s then [("GROUP BY", (2 : Int))] else [])
  ++ (if 0 < scanCount aggMatch s then
        [("Aggregations", aggFormula (scanCount aggMatch s))] else [])
  ++ (if 0 < scanCount (litMatch "(select".data) s then
        [("Subqueries", (scanCount (litMatch "(select".data) s : Int) * 3)] else [])
  ++ (if containsLower "with".data s then [("Common Table Expressions", (5 : Int))] else [])
  ++ (if containsLower "union".data s || containsLower "intersect".data s
        || containsLower "except".data s then [("Set operations", (5 : Int))] else [])
  ++ (if found overMatch s then [("Window functions", (6 : Int))] else [])
  ++ (if containsLower "pivot".data s || containsLower "unpivot".data s then
        [("PIVOT/UNPIVOT", (6 : Int))] else [])

/-- Join character lists with a separator list, with the semantics of the
Python join method. -/
def joinCharList (sep : List Char) : List (List Char) → List Char
  | [] => []
  | [x] => x
  | x :: y :: t => x ++ sep ++ joinCharList sep (y :: t)

/-- Join a list of strings with a separator, with the semantics of the
Python join method. -/
def joinWith (sep : String) (l : List String) : String :=
  String.mk (joinCharList sep.data (l.map String.data))

/-- Embedding of the explanation string built by explain_score: the entries
rendered as name, opening parenthesis, contribution, closing parenthesis,
joined by comma-space. -/
def explain_score (query : String) : String :=
  joinWith ", " ((explainEntries query).map
    (fun e => e.1 ++ " (" ++ toString e.2 ++ ")"))

/-- Sum of the parenthesized numeric contributions of the explanation. -/
def explanationTotal (query : String) : Int :=
  ((explainEntries query).map Prod.snd).sum

/-- Per-row derived completeness flag of the capture stage. -/
def rowCompleteness (q : String) : Nat := is_query_complete (extract_tables q)

/-- Per-row derived data environment of the capture stage. -/
def rowEnvironment (q : String) : String :=
  determine_primary_environment (extract_tables q) (rowCompleteness q)

/-- The score field of the categorization stage: either a numeric score or
the not-applicable sentinel written by the code for incomplete rows. -/
inductive ScoreVal
  | na
  | val (n : Int)
deriving DecidableEq, Repr

/-- Embedding of the score column written by process_queries. -/
def rowScore (q : String) : ScoreVal :=
  if rowCompleteness q = 1 then ScoreVal.val (score_query q) else ScoreVal.na

/-- Embedding of the category column written by process_queries. -/
def rowCategory (q : String) : String :=
  if rowCompleteness q = 1 then categorize_query (score_query q) else "Invalid/Incomplete"

/-- The normalized table names of a query, in extraction order, as built by
process_file. -/
def simplifiedTables (q : String) : List String :=
  (extract_tables q).map (fun p => get_simplified_table_name p.2 p.1)

/-- The structured output row written by process_file, restricted to the
fields derived from the query text. -/
structure CapturedRow where
  table_used : String
  completeness : Nat
  first_table_used : String
  second_table_used : String
  third_table_used : String
  fourth_table_used : String
  fifth_table_used : String
  sixth_table_used : String
  table_used_num : Nat
  data_environment : String
deriving DecidableEq, Repr

/-- Embedding of the row construction of process_file. -/
def captureRow (q : String) : CapturedRow :=
  let ts := simplifiedTables q
  { table_used := joinWith "," ts
    completeness := rowCompleteness q
    first_table_used := ts.getD 0 ""
    second_table_used := ts.getD 1 ""
    third_table_used := ts.getD 2 ""
    fourth_table_used := ts.getD 3 ""
    fifth_table_used := ts.getD 4 ""
    sixth_table_used := ts.getD 5 ""
    table_used_num := ts.length
    data_environment := rowEnvironment q }

/-- The six named slot fields of a captured row, in order. -/
def slotFields (r : CapturedRow) : List String :=
  [r.first_table_used, r.second_table_used, r.third_table_used,
    r.fourth_table_used, r.fifth_table_used, r.sixth_table_used]

/-- One step of the order-preserving counter used by the aggregator: bump
the count of a key if present, otherwise append it with count one, exactly
as a Python Counter updates while preserving insertion order. -/
def counterIncr (cnt : List (String × Nat)) (key : String) : List (String × Nat) :=
  match cnt with
  | [] => [(key, 1)]
  | (k, v) :: rest =>
    if k = key then (k, v + 1) :: rest else (k, v) :: counterIncr rest key

/-- Selection of the entry with the maximal count, keeping the earliest
entry on ties, with the semantics of most_common applied to an
insertion-ordered counter. -/
def pickMax : List (String × Nat) → Option (String × Nat)
  | [] => none
  | e :: rest => some (rest.foldl (fun b x => if b.2 < x.2 then x else b) e)

/-- Embedding of the most-used-table selection of create_club_analysis:
the first element of most_common when the counter is non-empty, otherwise
the empty string. -/
def mostUsed (cnt : List (String × Nat)) : String :=
  match pickMax cnt with
  | none => ""
  | some e => e.1

/-! Spec-side definitions, written from the words of the specification to
be compared with the embedded code. -/

/-- Modelled from the spec: the environment decision table of section 4.3,
read row by row. -/
def specEnvTable (table_info_list : List (Env × String)) (completeness : Nat) : String :=
  let lc := countEnv Env.legacy table_info_list
  let gc := countEnv Env.gridiron table_info_list
  if completeness = 0 then "N/A"
  else if table_info_list = [] then "unknown"
  else if gc < lc then "legacy"
  else if lc < gc then "gridiron"
  else if 0 < lc ∧ 0 < gc then "mixed"
  else "legacy"

/-- Drop a single trailing occurrence of a suffix, if present. -/
def dropSuffixOnce (suf : List Char) (l : List Char) : List Char :=
  if List.isSuffixOf suf l then l.take (l.length - suf.length) else l

/-- Modelled from the spec: the legacy normalization rule of section 4.2,
which strips the view suffix from the final dot-segment and then drops the
final underscore-delimited segment when more than one remains. -/
def specLegacyNormalize (table : String) : String :=
  let n2 := dropSuffixOnce "_vw".data (lastDotSegment table).data
  let parts := splitOnChar '_' n2
  if parts.length > 1 then String.mk (joinChar '_' parts.dropLast) else String.mk n2

/-- The signal-weight sum of the scoring table of section 4.4, written as a
plain sum of independent weights. -/
def specScoreSum (query : String) : Int :=
  let s := query.data
  (if containsLower "select *".data s then 0 else 1)
  + (if containsLower "limit".data s then 1 else 0)
  + (if containsLower "where".data s then 2 else 0)
  + (if containsLower "having".data s then 2 else 0)
  + (if containsLower "order by".data s then 1 else 0)
  + 3 * (scanCount (litMatch "join".data) s : Int)
  + (if containsLower "group by".data s then 2 else 0)
  + (if 0 < scanCount aggMatch s then 2 + ((scanCount aggMatch s : Int) - 1) else 0)
  + 3 * (scanCount (litMatch "(select".data) s : Int)
  + (if containsLower "with".data s then 5 else 0)
  + (if containsLower "union".data s || containsLower "intersect".data s
        || containsLower "except".data s then 5 else 0)
  + (if found overMatch s then 6 else 0)
  + (if containsLower "pivot".data s || containsLower "unpivot".data s then 6 else 0)

/-- One representative textual construct for each qualifying signal row of
the scoring table. -/
def qualifyingConstructs : List String :=
  [" LIMIT 10", " WHERE x = 1", " HAVING x", " ORDER BY x", " JOIN t",
    " GROUP BY x", " COUNT(x)", " (SELECT x)", " WITH t AS y", " UNION",
    " INTERSECT", " EXCEPT", " OVER (x)", " PIVOT", " UNPIVOT"]

/-- Properties a pattern matcher needs for the non-overlapping match count
to be monotone under appending text: matches are non-empty and bounded,
success is preserved and unchanged by extension, a match that fits inside a
prefix already succeeds there, and a boundary-spanning match leaves no
match inside the failed prefix. -/
structure GoodMatcher (m : List Char → Option Nat) : Prop where
  bounds : ∀ u n, m u = some n → 1 ≤ n ∧ n ≤ u.length
  stable : ∀ u v n, m u = some n → m (u ++ v) = some n
  prefixDet : ∀ u v n, m (u ++ v) = some n → n ≤ u.length → m u = some n
  noInner : ∀ u v n, m u = none → m (u ++ v) = some n →
    ∀ w, w.length < u.length → w <:+ u → m w = none

/-- Modelled from the spec: the amended legacy normalization rule, with
every occurrence of the literal view marker removed from the final
dot-segment (not only a trailing one) before the final underscore-delimited
segment is dropped. -/
def specLegacyNormalizeAmended (table : String) : String :=
  let n2 := stripVwAll (lastDotSegment table).data
  let parts := splitOnChar '_' n2
  if parts.length > 1 then String.mk (joinChar '_' parts.dropLast) else String.mk n2

/-- Modelled from the spec: the gridiron normalization rule of section 4.2,
the final dot-segment with the fixed literal prefix stripped if present. -/
def specGridironNormalize (table : String) : String :=
  let n1 := (lastDotSegment table).data
  if List.isPrefixOf "ptc_".data n1 then String.mk (n1.drop 4) else String.mk n1

end ClubSql

namespace ClubSql

section Helpers

lemma aggFormula_eq_spec (n : Nat) :
    aggFormula (n : Int) = if 0 < n then 2 + ((n : Int) - 1) else 0 := by
  rcases Nat.eq_zero_or_pos n with h | h
  · subst h; simp [aggFormula]
  · have h1 : (1 : Int) ≤ (n : Int) := by exact_mod_cast h
    simp only [aggFormula, h, if_true]
    omega

lemma aggFormula_nonneg (n : Nat) : 0 ≤ aggFormula (n : Int) := by
  rw [aggFormula_eq_spec]
  split <;> omega

lemma ite_nonneg (c : Prop) [Decidable c] (a b : Int) (ha : 0 ≤ a) (hb : 0 ≤ b) :
    0 ≤ if c then a else b := by
  split <;> assumption

lemma ite_count_mul3 (j : Nat) : (if 0 < j then (j : Int) * 3 else 0) = (j : Int) * 3 := by
  split <;> omega

lemma ite_agg_self (a : Nat) :
    (if 0 < a then aggFormula (a : Int) else 0) = aggFormula (a : Int) := by
  rcases Nat.eq_zero_or_pos a with h | h
  · subst h; simp [aggFormula]
  · simp [h]

lemma slots_take_replicate (l : List String) :
    [l.getD 0 "", l.getD 1 "", l.getD 2 "", l.getD 3 "", l.getD 4 "", l.getD 5 ""] =
      l.take 6 ++ List.replicate (6 - l.length) "" := by
  rcases l with _ | ⟨a, _ | ⟨b, _ | ⟨c, _ | ⟨d, _ | ⟨e, _ | ⟨f, l⟩⟩⟩⟩⟩⟩ <;>
    simp [List.getD]

lemma sum_snd_ite (c : Prop) [Decidable c] (s : String) (v : Int) :
    ((if c then [(s, v)] else []).map Prod.snd).sum = if c then v else 0 := by
  split <;> simp

lemma sum_snd_ite_rev (c : Prop) [Decidable c] (s : String) (v : Int) :
    ((if c then [] else [(s, v)]).map Prod.snd).sum = if c then 0 else v := by
  split <;> simp

end Helpers

section ExtractionShape

lemma hasPrefixLower_length {pat u : List Char} (h : hasPrefixLower pat u = true) :
    pat.length ≤ u.length := by
  induction pat generalizing u with
  | nil => simp
  | cons p ps ih =>
    cases u with
    | nil => simp [hasPrefixLower] at h
    | cons c cs =>
      simp only [hasPrefixLower, Bool.and_eq_true] at h
      simp only [List.length_cons]
      exact Nat.succ_le_succ (ih h.2)

lemma hasPrefixLower_map {pat u : List Char} (h : hasPrefixLower pat u = true) :
    (u.take pat.length).map Char.toLower = pat := by
  induction pat generalizing u with
  | nil => simp
  | cons p ps ih =>
    cases u with
    | nil => simp [hasPrefixLower] at h
    | cons c cs =>
      simp only [hasPrefixLower, Bool.and_eq_true, beq_iff_eq] at h
      simp [List.take_succ_cons, ih h.2, h.1]

lemma take_takeWhile_eq (p : Char → Bool) (l : List Char) :
    l.take (l.takeWhile p).length = l.takeWhile p := by
  induction l with
  | nil => rfl
  | cons c cs ih =>
    by_cases hc : p c
    · simp [List.takeWhile_cons, hc, ih]
    · simp [List.takeWhile_cons, hc]

lemma take_le_takeWhile (p : Char → Bool) (l : List Char) (j : Nat)
    (hj : j ≤ (l.takeWhile p).length) : l.take j = (l.takeWhile p).take j := by
  conv_rhs => rw [← take_takeWhile_eq p l]
  rw [List.take_take, min_eq_left hj]

lemma count_dot_take_of_aws {u : List Char}
    (h : hasPrefixLower "awsdatacatalog".data u = true) :
    (u.take 14).count '.' = 0 := by
  refine List.count_eq_zero.mpr (fun hmem => ?_)
  have hm := hasPrefixLower_map h
  have hlen : ("awsdatacatalog".data).length = 14 := by decide
  rw [hlen] at hm
  have : Char.toLower '.' ∈ (u.take 14).map Char.toLower := List.mem_map_of_mem _ hmem
  rw [hm] at this
  have hdot : Char.toLower '.' = '.' := by decide
  rw [hdot] at this
  exact absurd this (by decide)

lemma count_dot_takeWhile (p : Char → Bool) (hp : p '.' = false) (l : List Char) :
    (l.takeWhile p).count '.' = 0 := by
  refine List.count_eq_zero.mpr (fun hmem => ?_)
  have := List.mem_takeWhile_imp hmem
  rw [hp] at this
  exact absurd this (by simp)

lemma count_dot_take_takeWhile (p : Char → Bool) (hp : p '.' = false) (l : List Char)
    (j : Nat) : ((l.takeWhile p).take j).count '.' = 0 := by
  refine List.count_eq_zero.mpr (fun hmem => ?_)
  have hmem2 := List.take_subset j _ hmem
  have := List.mem_takeWhile_imp hmem2
  rw [hp] at this
  exact absurd this (by simp)

lemma head?_eq_cons {l : List Char} {a : Char} (h : l.head? = some a) :
    l = a :: l.tail := by
  cases l with
  | nil => simp at h
  | cons c cs => simp_all

lemma lastVw_some {R : List Char} {k : Nat} (h : lastVw R = some k) :
    1 ≤ k ∧ k + 3 ≤ R.length := by
  have hp := List.find?_some h
  simp only [Bool.and_eq_true, decide_eq_true_eq] at hp
  have h3 := hasPrefixLower_length hp.2
  have hlen : ("_vw".data).length = 3 := by decide
  rw [hlen, List.length_drop] at h3
  exact ⟨hp.1, by omega⟩

lemma legacyMatch_count {u : List Char} {n : Nat} (h : legacyMatch u = some n) :
    (u.take n).count '.' = 2 := by
  simp only [legacyMatch] at h
  split at h
  case isFalse => simp at h
  case isTrue h1 =>
    set r := (u.drop 14).tail with hr
    set seg1 := r.takeWhile nonDotWs with hseg
    split at h
    case isFalse => simp at h
    case isTrue h2 =>
      set r2 := (r.drop seg1.length).tail with hr2
      split at h
      case h_2 => simp at h
      case h_1 k hk =>
        obtain ⟨hk1, hk3⟩ := lastVw_some hk
        have h14 : u.drop 14 = '.' :: r := head?_eq_cons h1.2
        have hL : r.drop seg1.length = '.' :: r2 := head?_eq_cons h2.2
        have hn : n = 14 + ((seg1.length + ((k + 3) + 1)) + 1) := by
          have := Option.some.inj h; omega
        have hts : r.take seg1.length = seg1 := by
          rw [hseg]; exact take_takeWhile_eq nonDotWs r
        have htr : r2.take (k + 3) = (r2.takeWhile nonDotWs).take (k + 3) :=
          take_le_takeWhile nonDotWs r2 (k + 3) hk3
        have c0 : (u.take 14).count '.' = 0 := count_dot_take_of_aws h1.1
        have c1 : seg1.count '.' = 0 := by
          rw [hseg]; exact count_dot_takeWhile nonDotWs (by decide) r
        have c2 : ((r2.takeWhile nonDotWs).take (k + 3)).count '.' = 0 :=
          count_dot_take_takeWhile nonDotWs (by decide) r2 (k + 3)
        rw [hn, List.take_add, h14, List.take_succ_cons, List.take_add, hts, hL,
          List.take_succ_cons, htr]
        simp [List.count_append, List.count_cons, c0, c1, c2]

lemma gridironMatch_count {u : List Char} {n : Nat} (h : gridironMatch u = some n) :
    (u.take n).count '.' = 1 := by
  simp only [gridironMatch] at h
  split at h
  case isFalse => simp at h
  case isTrue h1 =>
    set R := u.takeWhile isAlphaUnd with hR
    set run2 := (u.drop R.length).tail.takeWhile isWordChar with hrun
    split at h
    case isFalse => simp at h
    case isTrue h2 =>
      have hd : u.drop R.length = '.' :: (u.drop R.length).tail := head?_eq_cons h1.2.2
      have hn : n = R.length + (run2.length + 1) := by
        have := Option.some.inj h; omega
      have h3 : u.take R.length = R := by
        rw [hR]; exact take_takeWhile_eq isAlphaUnd u
      have h4 : (u.drop R.length).tail.take run2.length = run2 := by
        rw [hrun]; exact take_takeWhile_eq isWordChar _
      have c1 : R.count '.' = 0 := by
        rw [hR]; exact count_dot_takeWhile isAlphaUnd (by decide) u
      have c2 : run2.count '.' = 0 := by
        rw [hrun]; exact count_dot_takeWhile isWordChar (by decide) _
      rw [hn, List.take_add, hd, List.take_succ_cons, h3, h4]
      simp [List.count_append, List.count_cons, c1, c2]

lemma findAllSkip_mem {m : List Char → Option Nat} {s : List Char} :
    ∀ {k : Nat} {x : List Char}, x ∈ findAllSkip m k s →
      ∃ u j, m u = some j ∧ x = u.take j := by
  induction s with
  | nil => intro k x hx; simp [findAllSkip] at hx
  | cons c cs ih =>
    intro k x hx
    match k with
    | k + 1 => exact ih hx
    | 0 =>
      rw [show findAllSkip m 0 (c :: cs) =
            (match m (c :: cs) with
              | some j => (c :: cs).take j :: findAllSkip m (j - 1) cs
              | none => findAllSkip m 0 cs) from rfl] at hx
      cases hm : m (c :: cs) with
      | none => rw [hm] at hx; exact ih hx
      | some j =>
        rw [hm] at hx
        rcases List.mem_cons.mp hx with h | h
        · exact ⟨c :: cs, j, hm, h⟩
        · exact ih h

lemma mem_dedupeTables : ∀ {l : List (Env × String)} {seen : List String}
    {x : Env × String}, x ∈ dedupeTables l seen → x ∈ l := by
  intro l
  induction l with
  | nil => intro seen x hx; simp [dedupeTables] at hx
  | cons a rest ih =>
    intro seen x hx
    obtain ⟨e, t⟩ := a
    rw [dedupeTables] at hx
    split at hx
    · exact List.mem_cons_of_mem _ (ih hx)
    · rcases List.mem_cons.mp hx with h | h
      · simp [h]
      · exact List.mem_cons_of_mem _ (ih h)

lemma legacyFindall_count {q : String} {s : String} (h : s ∈ legacyFindall q) :
    s.data.count '.' = 2 := by
  simp only [legacyFindall, List.mem_map] at h
  obtain ⟨x, hx, rfl⟩ := h
  obtain ⟨u, j, hm, rfl⟩ := findAllSkip_mem hx
  exact legacyMatch_count hm

lemma gridironFindall_count {q : String} {s : String} (h : s ∈ gridironFindall q) :
    s.data.count '.' = 1 := by
  simp only [gridironFindall, List.mem_map] at h
  obtain ⟨x, hx, rfl⟩ := h
  obtain ⟨u, j, hm, rfl⟩ := findAllSkip_mem hx
  exact gridironMatch_count hm

end ExtractionShape

section CounterLemmas

lemma foldl_pick_all_le (l : List (String × Nat)) (b : String × Nat)
    (h : ∀ x ∈ l, x.2 ≤ b.2) :
    l.foldl (fun b x => if b.2 < x.2 then x else b) b = b := by
  induction l generalizing b with
  | nil => rfl
  | cons a t ih =>
    have ha : a.2 ≤ b.2 := h a (by simp)
    simp only [List.foldl_cons, if_neg (by omega : ¬ b.2 < a.2)]
    exact ih b (fun x hx => h x (by simp [hx]))

lemma foldl_pick_lt (l : List (String × Nat)) (b : String × Nat) (v : Nat)
    (hl : ∀ x ∈ l, x.2 < v) (hb : b.2 < v) :
    (l.foldl (fun b x => if b.2 < x.2 then x else b) b).2 < v := by
  induction l generalizing b with
  | nil => exact hb
  | cons a t ih =>
    simp only [List.foldl_cons]
    have ha : a.2 < v := hl a (by simp)
    refine ih _ (fun x hx => hl x (by simp [hx])) ?_
    split <;> assumption

end CounterLemmas

section Monotonicity

lemma hpl_stable {pat u v : List Char} (h : hasPrefixLower pat u = true) :
    hasPrefixLower pat (u ++ v) = true := by
  induction pat generalizing u with
  | nil => rfl
  | cons p ps ih =>
    cases u with
    | nil => simp [hasPrefixLower] at h
    | cons c cs =>
      simp only [List.cons_append, hasPrefixLower, Bool.and_eq_true] at h ⊢
      exact ⟨h.1, ih h.2⟩

lemma hpl_append_left {pat u v : List Char} (h : hasPrefixLower pat (u ++ v) = true)
    (hlen : pat.length ≤ u.length) : hasPrefixLower pat u = true := by
  induction pat generalizing u with
  | nil => rfl
  | cons p ps ih =>
    cases u with
    | nil => simp at hlen
    | cons c cs =>
      simp only [List.cons_append, hasPrefixLower, Bool.and_eq_true] at h ⊢
      simp only [List.length_cons] at hlen
      exact ⟨h.1, ih h.2 (by omega)⟩

lemma containsLower_stable {pat s t : List Char} (h : containsLower pat s = true) :
    containsLower pat (s ++ t) = true := by
  induction s with
  | nil =>
    simp only [containsLower] at h
    cases pat with
    | nil => cases t <;> simp [containsLower, hasPrefixLower]
    | cons p ps => simp [hasPrefixLower] at h
  | cons c cs ih =>
    simp only [containsLower, Bool.or_eq_true, List.cons_append] at h ⊢
    rcases h with h | h
    · exact Or.inl (by simpa [List.cons_append] using @hpl_stable pat (c :: cs) t h)
    · exact Or.inr (ih h)

lemma containsLower_exists {pat l : List Char} (h : containsLower pat l = true) :
    ∃ w, w <:+ l ∧ hasPrefixLower pat w = true := by
  induction l with
  | nil => exact ⟨[], List.suffix_rfl, by simpa [containsLower] using h⟩
  | cons c cs ih =>
    simp only [containsLower, Bool.or_eq_true] at h
    rcases h with h | h
    · exact ⟨c :: cs, List.suffix_rfl, h⟩
    · obtain ⟨w, hw, hp⟩ := ih h
      exact ⟨w, hw.trans (List.suffix_cons c cs), hp⟩

lemma star_mem_of_hpl {u : List Char} (h : hasPrefixLower "select *".data u = true) :
    ∃ c ∈ u, c.toLower = '*' := by
  have hm := hasPrefixLower_map h
  have hstar : '*' ∈ ("select *".data) := by decide
  rw [← hm] at hstar
  obtain ⟨c, hc, he⟩ := List.mem_map.mp hstar
  exact ⟨c, List.take_subset _ _ hc, he⟩

lemma containsLower_star_append {s t : List Char}
    (h : containsLower "select *".data (s ++ t) = true)
    (ht : ∀ c ∈ t, c.toLower ≠ '*') :
    containsLower "select *".data s = true := by
  induction s with
  | nil =>
    exfalso
    simp only [List.nil_append] at h
    obtain ⟨w, hw, hp⟩ := containsLower_exists h
    obtain ⟨c, hc, he⟩ := star_mem_of_hpl hp
    exact ht c (hw.subset hc) he
  | cons a as ih =>
    simp only [containsLower, Bool.or_eq_true, List.cons_append] at h ⊢
    rcases h with h | h
    · by_cases hlen : ("select *".data).length ≤ (a :: as).length
      · refine Or.inl ?_
        have h' : hasPrefixLower "select *".data ((a :: as) ++ t) = true := by
          simpa [List.cons_append] using h
        exact hpl_append_left h' hlen
      · exfalso
        push_neg at hlen
        have h' : hasPrefixLower "select *".data ((a :: as) ++ t) = true := by
          simpa [List.cons_append] using h
        have hm := hasPrefixLower_map h'
        have h7 : ("select *".data)[7]? = some '*' := by decide
        rw [← hm] at h7
        have hlen8 : ("select *".data).length = 8 := by decide
        rw [hlen8] at h7
        rw [List.getElem?_map, List.getElem?_take, if_pos (by omega)] at h7
        rw [List.getElem?_append, if_neg (by rw [hlen8] at hlen; omega)] at h7
        cases hte : t[7 - (a :: as).length]? with
        | none => rw [hte] at h7; simp at h7
        | some c =>
          rw [hte] at h7
          simp only [Option.map_some'] at h7
          have hcmem : c ∈ t := List.getElem?_mem hte
          exact ht c hcmem (Option.some.inj h7)
    · exact Or.inr (ih h)

lemma found_stable {m : List Char → Option Nat}
    (hst : ∀ u v n, m u = some n → m (u ++ v) = some n)
    {s t : List Char} (h : found m s = true) : found m (s ++ t) = true := by
  induction s with
  | nil => simp [found] at h
  | cons c cs ih =>
    simp only [found, Bool.or_eq_true, List.cons_append, Option.isSome_iff_exists] at h ⊢
    rcases h with ⟨n, hn⟩ | h
    · refine Or.inl ⟨n, ?_⟩
      have := hst (c :: cs) t n hn
      simpa [List.cons_append] using this
    · exact Or.inr (ih h)

lemma hpl_agree_at {pat1 pat2 s v : List Char} {i : Nat}
    (h1 : hasPrefixLower pat1 s = true) (h2 : hasPrefixLower pat2 (s ++ v) = true)
    (hi1 : i < pat1.length) (hi2 : i < pat2.length) : pat1[i]? = pat2[i]? := by
  have e1 := hasPrefixLower_map h1
  have e2 := hasPrefixLower_map h2
  have hl1 := hasPrefixLower_length h1
  rw [← e1, ← e2]
  rw [List.getElem?_map, List.getElem?_map]
  rw [List.getElem?_take, if_pos hi1, List.getElem?_take, if_pos hi2]
  rw [List.getElem?_append, if_pos (by omega)]

lemma hpl_conflict {pat1 pat2 s v : List Char} (i : Nat)
    (h1 : hasPrefixLower pat1 s = true)
    (hi1 : i < pat1.length) (hi2 : i < pat2.length)
    (hne : pat1[i]? ≠ pat2[i]?) : hasPrefixLower pat2 (s ++ v) = false := by
  by_contra hc
  rw [Bool.not_eq_false] at hc
  exact hne (hpl_agree_at h1 hc hi1 hi2)

lemma hpl_no_paren {pat u : List Char} (h : hasPrefixLower pat u = true)
    (hp : '(' ∉ pat) : ∀ x ∈ u.take pat.length, x ≠ '(' := by
  intro x hx he
  subst he
  have hm := hasPrefixLower_map h
  have hmem : Char.toLower '(' ∈ pat := by
    rw [← hm]; exact List.mem_map_of_mem _ hx
  rw [show Char.toLower '(' = '(' from by decide] at hmem
  exact hp hmem

lemma scanSkip_eq_drop (m : List Char → Option Nat) :
    ∀ (s : List Char) (k : Nat), scanSkip m k s = scanCount m (s.drop k) := by
  intro s
  induction s with
  | nil => intro k; rw [List.drop_nil]; cases k <;> rfl
  | cons c cs ih =>
    intro k
    cases k with
    | zero => rfl
    | succ k =>
      calc scanSkip m (k + 1) (c :: cs) = scanSkip m k cs := rfl
        _ = scanCount m (cs.drop k) := ih k
        _ = scanCount m ((c :: cs).drop (k + 1)) := by rw [List.drop_succ_cons]

lemma scanCount_cons (m : List Char → Option Nat) (c : Char) (cs : List Char) :
    scanCount m (c :: cs) =
      match m (c :: cs) with
      | some n => scanCount m (cs.drop (n - 1)) + 1
      | none => scanCount m cs := by
  show scanSkip m 0 (c :: cs) = _
  rw [show scanSkip m 0 (c :: cs) =
      (match m (c :: cs) with
        | some n => scanSkip m (n - 1) cs + 1
        | none => scanSkip m 0 cs) from rfl]
  cases hm : m (c :: cs) with
  | some n =>
    show scanSkip m (n - 1) cs + 1 = scanCount m (cs.drop (n - 1)) + 1
    rw [scanSkip_eq_drop]
  | none => rfl

lemma scanCount_zero_of_none {m : List Char → Option Nat} :
    ∀ {s : List Char}, (∀ w, w <:+ s → m w = none) → scanCount m s = 0 := by
  intro s
  induction s with
  | nil => intro _; rfl
  | cons c cs ih =>
    intro h
    rw [scanCount_cons, h (c :: cs) List.suffix_rfl]
    exact ih (fun w hw => h w (hw.trans (List.suffix_cons c cs)))

lemma scanCount_append_le_aux {m : List Char → Option Nat} (hm : GoodMatcher m) :
    ∀ (N : Nat) (s t : List Char), s.length ≤ N →
      scanCount m s ≤ scanCount m (s ++ t) := by
  intro N
  induction N with
  | zero =>
    intro s t hs
    have hnil : s = [] := List.length_eq_zero.mp (Nat.le_zero.mp hs)
    subst hnil
    exact Nat.zero_le _
  | succ N ih =>
    intro s t hs
    cases s with
    | nil => exact Nat.zero_le _
    | cons c cs =>
      have hlen : cs.length ≤ N := by
        simp only [List.length_cons] at hs; omega
      rw [List.cons_append, scanCount_cons, scanCount_cons]
      cases h1 : m (c :: cs) with
      | some n =>
        have h2 : m (c :: (cs ++ t)) = some n := by
          have := hm.stable (c :: cs) t n h1
          simpa [List.cons_append] using this
        rw [h2]
        obtain ⟨hn1, hn2⟩ := hm.bounds _ _ h1
        show scanCount m (cs.drop (n - 1)) + 1 ≤ scanCount m ((cs ++ t).drop (n - 1)) + 1
        have hd : (cs ++ t).drop (n - 1) = cs.drop (n - 1) ++ t :=
          List.drop_append_of_le_length
            (by simp only [List.length_cons] at hn2; omega)
        rw [hd]
        have hdl : (cs.drop (n - 1)).length ≤ N := by
          rw [List.length_drop]; omega
        exact Nat.succ_le_succ (ih _ t hdl)
      | none =>
        cases h2 : m (c :: (cs ++ t)) with
        | none =>
          show scanCount m cs ≤ scanCount m (cs ++ t)
          exact ih cs t hlen
        | some n =>
          show scanCount m cs ≤ scanCount m ((cs ++ t).drop (n - 1)) + 1
          have h2' : m ((c :: cs) ++ t) = some n := by
            simpa [List.cons_append] using h2
          have hz : scanCount m cs = 0 := by
            apply scanCount_zero_of_none
            intro w hw
            refine hm.noInner (c :: cs) t n h1 h2' w ?_ (hw.trans (List.suffix_cons c cs))
            have := hw.length_le
            simp only [List.length_cons]
            omega
          rw [hz]
          exact Nat.zero_le _

lemma scanCount_mono {m : List Char → Option Nat} (hm : GoodMatcher m)
    (s t : List Char) : scanCount m s ≤ scanCount m (s ++ t) :=
  scanCount_append_le_aux hm s.length s t le_rfl

lemma wsParen_bounds : ∀ {r : List Char} {j : Nat}, wsParen r = some j →
    1 ≤ j ∧ j ≤ r.length := by
  intro r
  induction r with
  | nil => intro j h; simp [wsParen] at h
  | cons c cs ih =>
    intro j h
    simp only [wsParen] at h
    by_cases hc : c = '('
    · rw [if_pos hc] at h
      injection h with h'
      simp only [List.length_cons]
      omega
    · rw [if_neg hc] at h
      by_cases hw : c.isWhitespace = true
      · rw [if_pos hw] at h
        cases hcs : wsParen cs with
        | none => rw [hcs] at h; simp at h
        | some j' =>
          rw [hcs] at h
          simp only [Option.map_some'] at h
          injection h with h'
          obtain ⟨hb1, hb2⟩ := ih hcs
          simp only [List.length_cons]
          omega
      · rw [if_neg hw] at h; simp at h

lemma wsParen_stable : ∀ {r v : List Char} {j : Nat}, wsParen r = some j →
    wsParen (r ++ v) = some j := by
  intro r
  induction r with
  | nil => intro v j h; simp [wsParen] at h
  | cons c cs ih =>
    intro v j h
    simp only [wsParen, List.cons_append, List.append_eq] at h ⊢
    by_cases hc : c = '('
    · rw [if_pos hc] at h ⊢; exact h
    · rw [if_neg hc] at h ⊢
      by_cases hw : c.isWhitespace = true
      · rw [if_pos hw] at h ⊢
        cases hcs : wsParen cs with
        | none => rw [hcs] at h; simp at h
        | some j' =>
          rw [hcs] at h
          rw [ih hcs]
          exact h
      · rw [if_neg hw] at h; simp at h

lemma wsParen_prefixDet : ∀ {r v : List Char} {j : Nat}, wsParen (r ++ v) = some j →
    j ≤ r.length → wsParen r = some j := by
  intro r
  induction r with
  | nil =>
    intro v j h hj
    obtain ⟨h1, _⟩ := wsParen_bounds h
    simp only [List.length_nil] at hj
    omega
  | cons c cs ih =>
    intro v j h hj
    simp only [List.cons_append, List.append_eq, wsParen] at h ⊢
    by_cases hc : c = '('
    · rw [if_pos hc] at h ⊢; exact h
    · rw [if_neg hc] at h ⊢
      by_cases hw : c.isWhitespace = true
      · rw [if_pos hw] at h ⊢
        cases hcs : wsParen (cs ++ v) with
        | none => rw [hcs] at h; simp at h
        | some j' =>
          rw [hcs] at h
          simp only [Option.map_some'] at h
          injection h with h'
          have hj' : j' ≤ cs.length := by
            simp only [List.length_cons] at hj; omega
          rw [ih hcs hj']
          simp only [Option.map_some']
          rw [h']
      · rw [if_neg hw] at h; simp at h

lemma wsParen_none_succ : ∀ {r v : List Char} {j : Nat}, wsParen r = none →
    wsParen (r ++ v) = some j → ∀ x ∈ r, x.isWhitespace = true := by
  intro r
  induction r with
  | nil => intro v j _ _ x hx; simp at hx
  | cons c cs ih =>
    intro v j h1 h2 x hx
    simp only [List.cons_append, List.append_eq, wsParen] at h1 h2
    by_cases hc : c = '('
    · rw [if_pos hc] at h1; simp at h1
    · rw [if_neg hc] at h1 h2
      by_cases hw : c.isWhitespace = true
      · rw [if_pos hw] at h1 h2
        rcases List.mem_cons.mp hx with rfl | hx'
        · exact hw
        · cases hcs : wsParen cs with
          | none =>
            cases hcv : wsParen (cs ++ v) with
            | none => rw [hcv] at h2; simp at h2
            | some j' => exact ih hcs hcv x hx'
          | some j' => rw [hcs] at h1; simp at h1
      · rw [if_neg hw] at h2; simp at h2

lemma wsParen_paren_mem : ∀ {r : List Char} {j : Nat}, wsParen r = some j → '(' ∈ r := by
  intro r
  induction r with
  | nil => intro j h; simp [wsParen] at h
  | cons c cs ih =>
    intro j h
    simp only [wsParen] at h
    by_cases hc : c = '('
    · subst hc; simp
    · rw [if_neg hc] at h
      by_cases hw : c.isWhitespace = true
      · rw [if_pos hw] at h
        cases hcs : wsParen cs with
        | none => rw [hcs] at h; simp at h
        | some j' => exact List.mem_cons_of_mem _ (ih hcs)
      · rw [if_neg hw] at h; simp at h

lemma wsParen_take_ws : ∀ {r : List Char} {j : Nat}, wsParen r = some j →
    ∀ x ∈ r.take (j - 1), x.isWhitespace = true := by
  intro r
  induction r with
  | nil => intro j h; simp [wsParen] at h
  | cons c cs ih =>
    intro j h x hx
    simp only [wsParen] at h
    by_cases hc : c = '('
    · rw [if_pos hc] at h
      injection h with h'
      rw [← h'] at hx
      simp at hx
    · rw [if_neg hc] at h
      by_cases hw : c.isWhitespace = true
      · rw [if_pos hw] at h
        cases hcs : wsParen cs with
        | none => rw [hcs] at h; simp at h
        | some j' =>
          rw [hcs] at h
          simp only [Option.map_some'] at h
          injection h with h'
          obtain ⟨hb1, _⟩ := wsParen_bounds hcs
          rw [← h'] at hx
          have hx' : x ∈ (c :: cs).take j' := by simpa using hx
          obtain ⟨j'', rfl⟩ : ∃ j'', j' = j'' + 1 := ⟨j' - 1, by omega⟩
          rw [List.take_succ_cons] at hx'
          rcases List.mem_cons.mp hx' with rfl | hx''
          · exact hw
          · exact ih hcs x (by simpa using hx'')
      · rw [if_neg hw] at h; simp at h

lemma findAggName_cases {s : List Char} {k : Nat} (h : findAggName s = some k) :
    (hasPrefixLower "count".data s = true ∧ k = 5) ∨
    (¬hasPrefixLower "count".data s = true ∧ hasPrefixLower "sum".data s = true ∧ k = 3) ∨
    (¬hasPrefixLower "count".data s = true ∧ ¬hasPrefixLower "sum".data s = true ∧
      hasPrefixLower "avg".data s = true ∧ k = 3) ∨
    (¬hasPrefixLower "count".data s = true ∧ ¬hasPrefixLower "sum".data s = true ∧
      ¬hasPrefixLower "avg".data s = true ∧ hasPrefixLower "max".data s = true ∧ k = 3) ∨
    (¬hasPrefixLower "count".data s = true ∧ ¬hasPrefixLower "sum".data s = true ∧
      ¬hasPrefixLower "avg".data s = true ∧ ¬hasPrefixLower "max".data s = true ∧
      hasPrefixLower "min".data s = true ∧ k = 3) := by
  simp only [findAggName] at h
  split_ifs at h with h1 h2 h3 h4 h5
  · exact Or.inl ⟨h1, by injection h with h'; omega⟩
  · exact Or.inr (Or.inl ⟨h1, h2, by injection h with h'; omega⟩)
  · exact Or.inr (Or.inr (Or.inl ⟨h1, h2, h3, by injection h with h'; omega⟩))
  · exact Or.inr (Or.inr (Or.inr (Or.inl ⟨h1, h2, h3, h4, by injection h with h'; omega⟩)))
  · exact Or.inr (Or.inr (Or.inr (Or.inr ⟨h1, h2, h3, h4, h5, by injection h with h'; omega⟩)))

lemma findAggName_bounds {s : List Char} {k : Nat} (h : findAggName s = some k) :
    1 ≤ k ∧ k ≤ s.length := by
  rcases findAggName_cases h with ⟨h1, rfl⟩ | ⟨_, h1, rfl⟩ | ⟨_, _, h1, rfl⟩ |
    ⟨_, _, _, h1, rfl⟩ | ⟨_, _, _, _, h1, rfl⟩ <;>
    refine ⟨by omega, ?_⟩ <;>
    have hl := hasPrefixLower_length h1
  · have he : ("count".data).length = 5 := by decide
    omega
  · have he : ("sum".data).length = 3 := by decide
    omega
  · have he : ("avg".data).length = 3 := by decide
    omega
  · have he : ("max".data).length = 3 := by decide
    omega
  · have he : ("min".data).length = 3 := by decide
    omega

lemma findAggName_stable {s v : List Char} {k : Nat} (h : findAggName s = some k) :
    findAggName (s ++ v) = some k := by
  rcases findAggName_cases h with ⟨h1, rfl⟩ | ⟨hn1, h1, rfl⟩ | ⟨hn1, hn2, h1, rfl⟩ |
    ⟨hn1, hn2, hn3, h1, rfl⟩ | ⟨hn1, hn2, hn3, hn4, h1, rfl⟩
  · simp only [findAggName]
    rw [if_pos (hpl_stable h1)]
  · have g1 : hasPrefixLower "count".data (s ++ v) = false :=
      hpl_conflict 0 h1 (by decide) (by decide) (by decide)
    simp only [findAggName]
    rw [if_neg (by simp [g1]), if_pos (hpl_stable h1)]
  · have g1 : hasPrefixLower "count".data (s ++ v) = false :=
      hpl_conflict 0 h1 (by decide) (by decide) (by decide)
    have g2 : hasPrefixLower "sum".data (s ++ v) = false :=
      hpl_conflict 0 h1 (by decide) (by decide) (by decide)
    simp only [findAggName]
    rw [if_neg (by simp [g1]), if_neg (by simp [g2]), if_pos (hpl_stable h1)]
  · have g1 : hasPrefixLower "count".data (s ++ v) = false :=
      hpl_conflict 0 h1 (by decide) (by decide) (by decide)
    have g2 : hasPrefixLower "sum".data (s ++ v) = false :=
      hpl_conflict 0 h1 (by decide) (by decide) (by decide)
    have g3 : hasPrefixLower "avg".data (s ++ v) = false :=
      hpl_conflict 0 h1 (by decide) (by decide) (by decide)
    simp only [findAggName]
    rw [if_neg (by simp [g1]), if_neg (by simp [g2]), if_neg (by simp [g3]),
      if_pos (hpl_stable h1)]
  · have g1 : hasPrefixLower "count".data (s ++ v) = false :=
      hpl_conflict 0 h1 (by decide) (by decide) (by decide)
    have g2 : hasPrefixLower "sum".data (s ++ v) = false :=
      hpl_conflict 0 h1 (by decide) (by decide) (by decide)
    have g3 : hasPrefixLower "avg".data (s ++ v) = false :=
      hpl_conflict 0 h1 (by decide) (by decide) (by decide)
    have g4 : hasPrefixLower "max".data (s ++ v) = false :=
      hpl_conflict 1 h1 (by decide) (by decide) (by decide)
    simp only [findAggName]
    rw [if_neg (by simp [g1]), if_neg (by simp [g2]), if_neg (by simp [g3]),
      if_neg (by simp [g4]), if_pos (hpl_stable h1)]

lemma findAggName_prefixDet {s v : List Char} {k : Nat}
    (h : findAggName (s ++ v) = some k) (hk : k ≤ s.length) : findAggName s = some k := by
  have contrap : ∀ pat : List Char, ¬hasPrefixLower pat (s ++ v) = true →
      ¬hasPrefixLower pat s = true := by
    intro pat hp hc
    exact hp (hpl_stable hc)
  rcases findAggName_cases h with ⟨h1, rfl⟩ | ⟨hn1, h1, rfl⟩ | ⟨hn1, hn2, h1, rfl⟩ |
    ⟨hn1, hn2, hn3, h1, rfl⟩ | ⟨hn1, hn2, hn3, hn4, h1, rfl⟩
  · have hlen : ("count".data).length ≤ s.length := by
      have he : ("count".data).length = 5 := by decide
      omega
    simp only [findAggName]
    rw [if_pos (hpl_append_left h1 hlen)]
  · have hlen : ("sum".data).length ≤ s.length := by
      have he : ("sum".data).length = 3 := by decide
      omega
    simp only [findAggName]
    rw [if_neg (contrap _ hn1), if_pos (hpl_append_left h1 hlen)]
  · have hlen : ("avg".data).length ≤ s.length := by
      have he : ("avg".data).length = 3 := by decide
      omega
    simp only [findAggName]
    rw [if_neg (contrap _ hn1), if_neg (contrap _ hn2), if_pos (hpl_append_left h1 hlen)]
  · have hlen : ("max".data).length ≤ s.length := by
      have he : ("max".data).length = 3 := by decide
      omega
    simp only [findAggName]
    rw [if_neg (contrap _ hn1), if_neg (contrap _ hn2), if_neg (contrap _ hn3),
      if_pos (hpl_append_left h1 hlen)]
  · have hlen : ("min".data).length ≤ s.length := by
      have he : ("min".data).length = 3 := by decide
      omega
    simp only [findAggName]
    rw [if_neg (contrap _ hn1), if_neg (contrap _ hn2), if_neg (contrap _ hn3),
      if_neg (contrap _ hn4), if_pos (hpl_append_left h1 hlen)]

lemma findAggName_no_paren {s : List Char} {k : Nat} (h : findAggName s = some k) :
    ∀ x ∈ s.take k, x ≠ '(' := by
  rcases findAggName_cases h with ⟨h1, rfl⟩ | ⟨_, h1, rfl⟩ | ⟨_, _, h1, rfl⟩ |
    ⟨_, _, _, h1, rfl⟩ | ⟨_, _, _, _, h1, rfl⟩
  · have hnp := hpl_no_paren h1 (by decide)
    simpa [show ("count".data).length = 5 from by decide] using hnp
  · have hnp := hpl_no_paren h1 (by decide)
    simpa [show ("sum".data).length = 3 from by decide] using hnp
  · have hnp := hpl_no_paren h1 (by decide)
    simpa [show ("avg".data).length = 3 from by decide] using hnp
  · have hnp := hpl_no_paren h1 (by decide)
    simpa [show ("max".data).length = 3 from by decide] using hnp
  · have hnp := hpl_no_paren h1 (by decide)
    simpa [show ("min".data).length = 3 from by decide] using hnp

lemma litMatch_good (pat : List Char) (hp : pat ≠ []) : GoodMatcher (litMatch pat) := by
  constructor
  · intro u n h
    simp only [litMatch] at h
    split at h
    case isTrue hpre =>
      injection h with h'
      have hlen := hasPrefixLower_length hpre
      have hpos : 0 < pat.length := List.length_pos.mpr hp
      omega
    case isFalse => simp at h
  · intro u v n h
    simp only [litMatch] at h ⊢
    split at h
    case isTrue hpre => rw [if_pos (hpl_stable hpre)]; exact h
    case isFalse => simp at h
  · intro u v n h hn
    simp only [litMatch] at h ⊢
    split at h
    case isTrue hpre =>
      injection h with h'
      rw [if_pos (hpl_append_left hpre (by omega))]
      rw [h']
    case isFalse => simp at h
  · intro u v n hnone hsome w hwl hws
    simp only [litMatch] at hnone hsome ⊢
    have hu : ¬hasPrefixLower pat u = true := by
      intro hc
      rw [if_pos hc] at hnone
      exact absurd hnone (by simp)
    have hlen : u.length < pat.length := by
      by_contra hge
      push_neg at hge
      split at hsome
      case isTrue hpre => exact hu (hpl_append_left hpre hge)
      case isFalse => simp at hsome
    rw [if_neg ?_]
    intro hw
    have := hasPrefixLower_length hw
    omega

lemma aggMatch_bounds {u : List Char} {n : Nat} (h : aggMatch u = some n) :
    1 ≤ n ∧ n ≤ u.length := by
  simp only [aggMatch] at h
  cases hf : findAggName u with
  | none => simp only [hf] at h; simp at h
  | some k =>
    simp only [hf] at h
    cases hw : wsParen (u.drop k) with
    | none => simp only [hw] at h; simp at h
    | some j =>
      simp only [hw] at h
      simp only [Option.map_some'] at h
      injection h with h'
      obtain ⟨hj1, hj2⟩ := wsParen_bounds hw
      obtain ⟨hk1, hk2⟩ := findAggName_bounds hf
      rw [List.length_drop] at hj2
      omega

lemma aggMatch_stable {u v : List Char} {n : Nat} (h : aggMatch u = some n) :
    aggMatch (u ++ v) = some n := by
  simp only [aggMatch] at h ⊢
  cases hf : findAggName u with
  | none => simp only [hf] at h; simp at h
  | some k =>
    simp only [hf] at h
    simp only [findAggName_stable hf]
    cases hw : wsParen (u.drop k) with
    | none => simp only [hw] at h; simp at h
    | some j =>
      simp only [hw] at h
      have hk := (findAggName_bounds hf).2
      rw [List.drop_append_of_le_length hk]
      rw [wsParen_stable hw]
      exact h

lemma aggMatch_prefixDet {u v : List Char} {n : Nat} (h : aggMatch (u ++ v) = some n)
    (hn : n ≤ u.length) : aggMatch u = some n := by
  simp only [aggMatch] at h ⊢
  cases hf : findAggName (u ++ v) with
  | none => simp only [hf] at h; simp at h
  | some k =>
    simp only [hf] at h
    cases hw : wsParen ((u ++ v).drop k) with
    | none => simp only [hw] at h; simp at h
    | some j =>
      simp only [hw] at h
      simp only [Option.map_some'] at h
      injection h with h'
      obtain ⟨hj1, _⟩ := wsParen_bounds hw
      have hku : k ≤ u.length := by omega
      simp only [findAggName_prefixDet hf hku]
      rw [List.drop_append_of_le_length hku] at hw
      have hj2 : j ≤ (u.drop k).length := by
        rw [List.length_drop]; omega
      rw [wsParen_prefixDet hw hj2]
      simp only [Option.map_some']
      rw [h']

lemma aggMatch_paren_mem {w : List Char} {j : Nat} (h : aggMatch w = some j) :
    '(' ∈ w := by
  simp only [aggMatch] at h
  cases hf : findAggName w with
  | none => simp only [hf] at h; simp at h
  | some k =>
    simp only [hf] at h
    cases hw : wsParen (w.drop k) with
    | none => simp only [hw] at h; simp at h
    | some j' => exact List.drop_subset _ _ (wsParen_paren_mem hw)

lemma aggMatch_noInner {u v : List Char} {n : Nat} (hnone : aggMatch u = none)
    (hsome : aggMatch (u ++ v) = some n) :
    ∀ w, w.length < u.length → w <:+ u → aggMatch w = none := by
  intro w hwl hws
  have hgt : u.length < n := by
    by_contra hle
    push_neg at hle
    rw [aggMatch_prefixDet hsome hle] at hnone
    exact absurd hnone (by simp)
  have htake : ∀ x ∈ (u ++ v).take (n - 1), x ≠ '(' := by
    simp only [aggMatch] at hsome
    cases hf : findAggName (u ++ v) with
    | none => simp only [hf] at hsome; simp at hsome
    | some k =>
      rw [hf] at hsome
      cases hw : wsParen ((u ++ v).drop k) with
      | none => simp only [hw] at hsome; simp at hsome
      | some j =>
        simp only [hw] at hsome
        simp only [Option.map_some'] at hsome
        injection hsome with h'
        have h1 := findAggName_no_paren hf
        have h2 := wsParen_take_ws hw
        obtain ⟨hj1, _⟩ := wsParen_bounds hw
        intro x hx
        rw [show n - 1 = k + (j - 1) from by omega, List.take_add] at hx
        rcases List.mem_append.mp hx with hx | hx
        · exact h1 x hx
        · intro he
          subst he
          have hws' := h2 _ hx
          rw [show ('(').isWhitespace = false from by decide] at hws'
          exact absurd hws' (by simp)
  have hu : '(' ∉ u := by
    intro hmem
    have hx : ('(' : Char) ∈ (u ++ v).take (n - 1) := by
      have hsplit : (u ++ v).take (n - 1) = u ++ v.take (n - 1 - u.length) := by
        rw [show n - 1 = u.length + (n - 1 - u.length) from by omega, List.take_append]
        simp
      rw [hsplit]
      exact List.mem_append_left _ hmem
    exact htake '(' hx rfl
  cases hw : aggMatch w with
  | none => rfl
  | some j =>
    exact absurd (hws.subset (aggMatch_paren_mem hw)) hu

lemma aggMatch_good : GoodMatcher aggMatch :=
  ⟨fun _ _ h => aggMatch_bounds h,
   fun _ _ _ h => aggMatch_stable h,
   fun _ _ _ h hn => aggMatch_prefixDet h hn,
   fun _ _ _ h1 h2 => aggMatch_noInner h1 h2⟩

lemma overMatch_stable (u v : List Char) (n : Nat) (h : overMatch u = some n) :
    overMatch (u ++ v) = some n := by
  simp only [overMatch] at h ⊢
  split at h
  case isTrue hpre =>
    rw [if_pos (hpl_stable hpre)]
    have hk : 4 ≤ u.length := by
      have hlen := hasPrefixLower_length hpre
      simp at hlen
      omega
    rw [List.drop_append_of_le_length hk]
    cases hw : wsParen (u.drop 4) with
    | none => rw [hw] at h; simp at h
    | some j =>
      rw [hw] at h
      rw [wsParen_stable hw]
      exact h
  case isFalse => simp at h

lemma containsLower_or3_stable {p1 p2 p3 s u : List Char}
    (h : (containsLower p1 s || containsLower p2 s || containsLower p3 s) = true) :
    (containsLower p1 (s ++ u) || containsLower p2 (s ++ u)
      || containsLower p3 (s ++ u)) = true := by
  simp only [Bool.or_eq_true] at h ⊢
  rcases h with (h | h) | h
  · exact Or.inl (Or.inl (containsLower_stable h))
  · exact Or.inl (Or.inr (containsLower_stable h))
  · exact Or.inr (containsLower_stable h)

lemma containsLower_or2_stable {p1 p2 s u : List Char}
    (h : (containsLower p1 s || containsLower p2 s) = true) :
    (containsLower p1 (s ++ u) || containsLower p2 (s ++ u)) = true := by
  simp only [Bool.or_eq_true] at h ⊢
  rcases h with h | h
  · exact Or.inl (containsLower_stable h)
  · exact Or.inr (containsLower_stable h)

lemma aggFormula_mono {a b : Nat} (h : a ≤ b) :
    aggFormula (a : Int) ≤ aggFormula (b : Int) := by
  rw [aggFormula_eq_spec, aggFormula_eq_spec]
  split_ifs <;> omega

lemma score_query_mono (q t : String) (ht : ∀ c ∈ t.data, c.toLower ≠ '*') :
    score_query q ≤ score_query (q ++ t) := by
  have hdata : (q ++ t).data = q.data ++ t.data := rfl
  simp only [score_query, hdata]
  refine add_le_add (add_le_add (add_le_add (add_le_add (add_le_add (add_le_add
    (add_le_add (add_le_add (add_le_add (add_le_add (add_le_add (add_le_add
      ?g1 ?g2) ?g3) ?g4) ?g5) ?g6) ?g7) ?g8) ?g9) ?g10) ?g11) ?g12) ?g13
  case g1 =>
    by_cases hc : containsLower "select *".data q.data = true
    · rw [if_pos hc]
      exact ite_nonneg _ _ _ le_rfl (by norm_num)
    · have hcR : ¬containsLower "select *".data (q.data ++ t.data) = true :=
        fun hcR => hc (containsLower_star_append hcR ht)
      rw [if_neg hc, if_neg hcR]
  case g2 =>
    by_cases hc : containsLower "limit".data q.data = true
    · rw [if_pos hc, if_pos (containsLower_stable hc)]
    · rw [if_neg hc]
      exact ite_nonneg _ _ _ (by norm_num) le_rfl
  case g3 =>
    by_cases hc : containsLower "where".data q.data = true
    · rw [if_pos hc, if_pos (containsLower_stable hc)]
    · rw [if_neg hc]
      exact ite_nonneg _ _ _ (by norm_num) le_rfl
  case g4 =>
    by_cases hc : containsLower "having".data q.data = true
    · rw [if_pos hc, if_pos (containsLower_stable hc)]
    · rw [if_neg hc]
      exact ite_nonneg _ _ _ (by norm_num) le_rfl
  case g5 =>
    by_cases hc : containsLower "order by".data q.data = true
    · rw [if_pos hc, if_pos (containsLower_stable hc)]
    · rw [if_neg hc]
      exact ite_nonneg _ _ _ (by norm_num) le_rfl
  case g6 =>
    have hmono := scanCount_mono (litMatch_good "join".data (by decide)) q.data t.data
    simp only [show "join".data = ['j', 'o', 'i', 'n'] from rfl] at hmono
    omega
  case g7 =>
    by_cases hc : containsLower "group by".data q.data = true
    · rw [if_pos hc, if_pos (containsLower_stable hc)]
    · rw [if_neg hc]
      exact ite_nonneg _ _ _ (by norm_num) le_rfl
  case g8 => exact aggFormula_mono (scanCount_mono aggMatch_good q.data t.data)
  case g9 =>
    have hmono := scanCount_mono (litMatch_good "(select".data (by decide)) q.data t.data
    simp only [show "(select".data = ['(', 's', 'e', 'l', 'e', 'c', 't'] from rfl] at hmono
    omega
  case g10 =>
    by_cases hc : containsLower "with".data q.data = true
    · rw [if_pos hc, if_pos (containsLower_stable hc)]
    · rw [if_neg hc]
      exact ite_nonneg _ _ _ (by norm_num) le_rfl
  case g11 =>
    by_cases hc : (containsLower "union".data q.data || containsLower "intersect".data q.data
        || containsLower "except".data q.data) = true
    · rw [if_pos hc, if_pos (containsLower_or3_stable hc)]
    · rw [if_neg hc]
      exact ite_nonneg _ _ _ (by norm_num) le_rfl
  case g12 =>
    by_cases hc : found overMatch q.data = true
    · rw [if_pos hc, if_pos (found_stable overMatch_stable hc)]
    · rw [if_neg hc]
      exact ite_nonneg _ _ _ (by norm_num) le_rfl
  case g13 =>
    by_cases hc : (containsLower "pivot".data q.data
        || containsLower "unpivot".data q.data) = true
    · rw [if_pos hc, if_pos (containsLower_or2_stable hc)]
    · rw [if_neg hc]
      exact ite_nonneg _ _ _ (by norm_num) le_rfl

end Monotonicity

/-- C1: for the query SELECT * FROM fulfillment_ptc.ptc_ticketing_sales
WHERE club_id = 5, the claim asserts complexity score 3 with a
not-select-star bonus and category Focused Exploratory; the query contains
a select-star clause, so the code produces score 2 and category Basic
Exploratory instead. -/
theorem c1_counterexample :
    score_query "SELECT * FROM fulfillment_ptc.ptc_ticketing_sales WHERE club_id = 5" = 2 ∧
    score_query "SELECT * FROM fulfillment_ptc.ptc_ticketing_sales WHERE club_id = 5" ≠ 3 ∧
    categorize_query
        (score_query "SELECT * FROM fulfillment_ptc.ptc_ticketing_sales WHERE club_id = 5")
      ≠ "Focused Exploratory" := by
  refine ⟨by decide, by decide, by decide⟩

/-- C1 (amended): the pipeline extracts exactly the single gridiron
reference fulfillment_ptc.ptc_ticketing_sales, normalizes it to
ticketing_sales, sets completeness to one, classifies the environment as
gridiron, and, since the select-star clause is present, computes score 2
(where only) and assigns category Basic Exploratory. -/
theorem c1_end_to_end :
    extract_tables "SELECT * FROM fulfillment_ptc.ptc_ticketing_sales WHERE club_id = 5"
        = [(Env.gridiron, "fulfillment_ptc.ptc_ticketing_sales")] ∧
    get_simplified_table_name "fulfillment_ptc.ptc_ticketing_sales" Env.gridiron
        = "ticketing_sales" ∧
    rowCompleteness "SELECT * FROM fulfillment_ptc.ptc_ticketing_sales WHERE club_id = 5" = 1 ∧
    rowEnvironment "SELECT * FROM fulfillment_ptc.ptc_ticketing_sales WHERE club_id = 5"
        = "gridiron" ∧
    score_query "SELECT * FROM fulfillment_ptc.ptc_ticketing_sales WHERE club_id = 5" = 2 ∧
    rowCategory "SELECT * FROM fulfillment_ptc.ptc_ticketing_sales WHERE club_id = 5"
        = "Basic Exploratory" := by
  refine ⟨by decide, by decide, by decide, by decide, by decide, by decide⟩

/-- C2: the claim asserts that no text region is ever reported under both
environment tags; on the query AwsDataCatalog.foo_ptc.bar_vw the extractor
reports both the legacy reference AwsDataCatalog.foo_ptc.bar_vw and the
gridiron reference foo_ptc.bar_vw, and the latter is a textual infix of the
former, so a gridiron-reported identifier can overlap a legacy match. -/
theorem c2_counterexample :
    extract_tables "AwsDataCatalog.foo_ptc.bar_vw" =
      [(Env.legacy, "AwsDataCatalog.foo_ptc.bar_vw"), (Env.gridiron, "foo_ptc.bar_vw")] ∧
    "foo_ptc.bar_vw".data <:+: "AwsDataCatalog.foo_ptc.bar_vw".data := by
  refine ⟨by decide, by decide⟩

/-- C2 (amended): the two pattern families never report the same raw
identifier string under both environment tags: every legacy-reported
identifier contains exactly two dots while every gridiron-reported
identifier contains exactly one, so the two reported identifier sets are
disjoint, although a gridiron-reported identifier may textually overlap a
legacy match. -/
theorem c2_no_shared_identifier (q : String) (s1 s2 : String)
    (h1 : (Env.legacy, s1) ∈ extract_tables q)
    (h2 : (Env.gridiron, s2) ∈ extract_tables q) : s1 ≠ s2 := by
  intro heq
  have h1' := mem_dedupeTables h1
  have h2' := mem_dedupeTables h2
  have hs1 : s1 ∈ legacyFindall q := by
    rcases List.mem_append.mp h1' with ha | ha
    · simp only [List.mem_map, Prod.mk.injEq] at ha
      obtain ⟨t, ht, _, rfl⟩ := ha
      exact ht
    · simp only [List.mem_map, Prod.mk.injEq] at ha
      obtain ⟨t, ht, hbad, _⟩ := ha
      simp at hbad
  have hs2 : s2 ∈ gridironFindall q := by
    rcases List.mem_append.mp h2' with ha | ha
    · simp only [List.mem_map, Prod.mk.injEq] at ha
      obtain ⟨t, ht, hbad, _⟩ := ha
      simp at hbad
    · simp only [List.mem_map, Prod.mk.injEq] at ha
      obtain ⟨t, ht, _, rfl⟩ := ha
      exact ht
  have c1 := legacyFindall_count hs1
  have c2 := gridironFindall_count hs2
  rw [heq] at c1
  omega

/-- C2 witness: on the overlapping query the legacy-reported and
gridiron-reported identifiers are distinct strings. -/
theorem c2_no_shared_identifier_witness :
    "AwsDataCatalog.foo_ptc.bar_vw" ≠ "foo_ptc.bar_vw" :=
  c2_no_shared_identifier "AwsDataCatalog.foo_ptc.bar_vw"
    "AwsDataCatalog.foo_ptc.bar_vw" "foo_ptc.bar_vw" (by decide) (by decide)

/-- C3: for every query text, the complexity score equals the sum of the
independent signal weights of the scoring table, with the aggregate family
contributing two for the first call and one per additional call, and the
result is non-negative. -/
theorem c3_score_is_signal_sum (q : String) :
    score_query q = specScoreSum q ∧ 0 ≤ score_query q := by
  have heq : score_query q = specScoreSum q := by
    simp only [score_query, specScoreSum]
    rw [aggFormula_eq_spec]
    ring
  refine ⟨heq, ?_⟩
  rw [heq]
  simp only [specScoreSum]
  refine add_nonneg (add_nonneg (add_nonneg (add_nonneg (add_nonneg (add_nonneg (add_nonneg
    (add_nonneg (add_nonneg (add_nonneg (add_nonneg (add_nonneg ?_ ?_) ?_) ?_) ?_) ?_)
    ?_) ?_) ?_) ?_) ?_) ?_) ?_ <;>
    first
      | (apply ite_nonneg <;> omega)
      | omega

/-- C3 witness: the score of a concrete query agrees with the spec-side
signal sum and is non-negative. -/
theorem c3_score_is_signal_sum_witness :
    score_query "SELECT a FROM t WHERE x" = specScoreSum "SELECT a FROM t WHERE x" ∧
    0 ≤ score_query "SELECT a FROM t WHERE x" :=
  c3_score_is_signal_sum "SELECT a FROM t WHERE x"

/-- C4: the environment classifier agrees with the decision table of the
spec on every deduplicated reference list and completeness flag:
not-applicable when completeness is false, unknown on an empty list,
majority environment otherwise, mixed on a positive tie, and legacy on the
degenerate all-zero tie. -/
theorem c4_env_decision_table (l : List (Env × String)) (c : Nat) :
    determine_primary_environment l c = specEnvTable l c := by
  cases l <;> simp [determine_primary_environment, specEnvTable]

/-- C5: the claim describes the legacy normalization as stripping the view
suffix once; the code removes every occurrence of the literal view marker,
so on the identifier a_vw_b_vw the code yields a while the suffix-stripping
rule of the claim yields a_vw. -/
theorem c5_counterexample :
    get_simplified_table_name "a_vw_b_vw" Env.legacy = "a" ∧
    specLegacyNormalize "a_vw_b_vw" = "a_vw" ∧
    get_simplified_table_name "a_vw_b_vw" Env.legacy ≠ specLegacyNormalize "a_vw_b_vw" := by
  refine ⟨by decide, by decide, by decide⟩

/-- C5 (amended): normalization is total and returns, for legacy, the final
dot-segment with every occurrence of the literal view marker removed and
then the final underscore-delimited segment dropped if and only if more
than one segment remains; for gridiron, the final dot-segment with the
literal prefix stripped if present, otherwise unchanged. -/
theorem c5_normalizer (table : String) (e : Env) :
    get_simplified_table_name table e =
      match e with
      | Env.legacy => specLegacyNormalizeAmended table
      | Env.gridiron => specGridironNormalize table := by
  cases e <;> rfl

/-- C6: for every query text, summing the parenthesized numeric
contributions of the explanation entries equals the complexity score,
because scorer and explainer evaluate the identical signal definitions. -/
theorem c6_explanation_total (q : String) : explanationTotal q = score_query q := by
  simp only [explanationTotal, explainEntries, score_query, List.map_append, List.sum_append,
    sum_snd_ite, sum_snd_ite_rev]
  rw [ite_count_mul3, ite_agg_self, ite_count_mul3]

/-- C8: a query from which no table reference is extractable gets
completeness zero, the not-applicable environment sentinel, the
not-applicable score sentinel and the Invalid/Incomplete category; and a
numeric score is only ever produced for rows whose completeness flag is
true. -/
theorem c8_incomplete_sentinels (q : String) :
    (extract_tables q = [] →
      rowCompleteness q = 0 ∧ rowEnvironment q = "N/A" ∧
      rowScore q = ScoreVal.na ∧ rowCategory q = "Invalid/Incomplete") ∧
    (rowScore q ≠ ScoreVal.na → rowCompleteness q = 1) := by
  constructor
  · intro h
    have hc : rowCompleteness q = 0 := by
      simp [rowCompleteness, is_query_complete, h]
    refine ⟨hc, ?_, ?_, ?_⟩
    · simp [rowEnvironment, determine_primary_environment, hc]
    · simp [rowScore, hc]
    · simp [rowCategory, hc]
  · intro h
    by_contra hne
    simp [rowScore, hne] at h

/-- C8 witness: a concrete query with no extractable reference produces all
four incomplete-row sentinels. -/
theorem c8_incomplete_sentinels_witness :
    rowCompleteness "show me the numbers" = 0 ∧
    rowEnvironment "show me the numbers" = "N/A" ∧
    rowScore "show me the numbers" = ScoreVal.na ∧
    rowCategory "show me the numbers" = "Invalid/Incomplete" :=
  (c8_incomplete_sentinels "show me the numbers").1 (by decide)


/-- C7: when a counter entry is preceded only by entries of strictly
smaller count and followed only by entries of no larger count (in
particular on ties for the maximum), the most-used-table selection returns
that first-to-reach-the-maximum entry, so the selection is deterministic
under the insertion order of the order-preserving counting structure. -/
theorem c7_most_used_tie_break (pre post : List (String × Nat)) (e : String × Nat)
    (hpre : ∀ x ∈ pre, x.2 < e.2) (hpost : ∀ x ∈ post, x.2 ≤ e.2) :
    mostUsed (pre ++ e :: post) = e.1 := by
  cases pre with
  | nil =>
    simp only [List.nil_append, mostUsed, pickMax, List.foldl_cons]
    rw [foldl_pick_all_le post e hpost]
  | cons p pre =>
    simp only [List.cons_append, mostUsed, pickMax, List.foldl_append, List.foldl_cons]
    have hp : p.2 < e.2 := hpre p (by simp)
    have hb : (pre.foldl (fun b x => if b.2 < x.2 then x else b) p).2 < e.2 :=
      foldl_pick_lt pre p e.2 (fun x hx => hpre x (by simp [hx])) hp
    rw [if_pos hb, foldl_pick_all_le post e hpost]

/-- C7 witness: with the counters of tables a, b, c reaching counts one,
two and two in insertion order, the tie at the maximal count two is broken
in favour of b, the first table to reach it. -/
theorem c7_most_used_tie_break_witness :
    mostUsed [("a", 1), ("b", 2), ("c", 2)] = "b" :=
  c7_most_used_tie_break [("a", 1)] [("c", 2)] ("b", 2) (by decide) (by decide)

/-- C9: appending any single qualifying construct from the signal table to
a query text never decreases the complexity score: presence signals can
only switch on, occurrence counts can only grow, and no qualifying
construct can introduce a select-star clause. -/
theorem c9_score_monotone (q c : String) (hc : c ∈ qualifyingConstructs) :
    score_query q ≤ score_query (q ++ c) := by
  have hall : ∀ x ∈ qualifyingConstructs, ∀ ch ∈ x.data, ch.toLower ≠ '*' := by decide
  exact score_query_mono q c (hall c hc)

/-- C9 witness: appending a filter clause to a concrete query does not
decrease its score. -/
theorem c9_score_monotone_witness :
    score_query "SELECT * FROM fulfillment_ptc.ptc_ticketing_sales" ≤
      score_query ("SELECT * FROM fulfillment_ptc.ptc_ticketing_sales" ++ " WHERE x = 1") :=
  c9_score_monotone "SELECT * FROM fulfillment_ptc.ptc_ticketing_sales" " WHERE x = 1"
    (by decide)

/-- C10: the comma-joined table_used field always joins the full
deduplicated normalized table list in extraction order, table_used_num is
the full deduplicated count, and only the six named slot fields truncate
the list beyond six entries. -/
theorem c10_capture_row_fields (q : String) :
    (captureRow q).table_used = joinWith "," (simplifiedTables q) ∧
    (captureRow q).table_used_num = (extract_tables q).length ∧
    slotFields (captureRow q) =
      (simplifiedTables q).take 6 ++
        List.replicate (6 - (simplifiedTables q).length) "" := by
  refine ⟨rfl, ?_, ?_⟩
  · simp [captureRow, simplifiedTables]
  · rw [← slots_take_replicate]
    rfl

example : gridironFindall "SELECT * FROM fulfillment_ptc.ptc_ticketing_sales WHERE club_id = 5"
    = ["fulfillment_ptc.ptc_ticketing_sales"] := by decide

example : extract_tables "SELECT * FROM fulfillment_ptc.ptc_ticketing_sales WHERE club_id = 5"
    = [(Env.gridiron, "fulfillment_ptc.ptc_ticketing_sales")] := by decide

example : score_query "SELECT * FROM fulfillment_ptc.ptc_ticketing_sales WHERE club_id = 5" = 2 := by
  decide

example : get_simplified_table_name "fulfillment_ptc.ptc_ticketing_sales" Env.gridiron
    = "ticketing_sales" := by decide

example : legacyFindall "AwsDataCatalog.foo_ptc.bar_vw" = ["AwsDataCatalog.foo_ptc.bar_vw"] := by
  decide

example : gridironFindall "AwsDataCatalog.foo_ptc.bar_vw" = ["foo_ptc.bar_vw"] := by decide

example : legacyFindall "AwsDataCatalog.db.table_vw_extra" = ["AwsDataCatalog.db.table_vw"] := by
  decide

example : get_simplified_table_name "a_vw_b_vw" Env.legacy = "a" := by decide

example : score_query "MIN(a) min(b)" = 4 := by decide

example : score_query "WITH t AS (SELECT a FROM b) SELECT x FROM t JOIN u ON c GROUP BY x HAVING y ORDER BY z LIMIT 3"
    = 1 + 1 + 2 + 1 + 3 + 2 + 3 + 5 := by decide

end ClubSql
